import Mathlib

/-!
Verification development for the depsort dependency analyzer.

We give a shallow embedding of the three core components of the tool,
translated from the TypeScript sources:

* `src/file-classifier.ts` — `classifyFile`, `isInSourceDir`;
* `src/import-scanner.ts` — `hasTypeOnlySpecifiers`, `extractPackageName`
  and the type-only flag computed for static import declarations;
* `src/analyzer.ts` — `analyzePackageUsage`, `analyzeDependencies`.

JavaScript strings are modelled by Lean `String` (a wrapper around
`List Char`); the handful of JavaScript string primitives the sources use
(`split` with a one-character separator, `startsWith`, `endsWith`,
`includes`, `replace(/\\/g, m)`, `toLowerCase`) are embedded as explicit
list-based functions below, so that every definition is executable and
amenable to induction.

The Node `path` prelude of `classifyFile`
(`path.relative(config.rootDir, filePath)`) is modelled by taking the
root-relative path itself as the argument of `classifyFile`; `path.basename`
and `path.dirname` are embedded for forward-slash paths.
-/

namespace Depsort

/-- Embedding of JavaScript `s.split(sep)` for a one-character separator
`sep`, on the character list of the string.  As in JavaScript,
`charSplit c []` is `[[]]` (splitting the empty string yields one empty
piece) and separators at the ends produce empty pieces. -/
def charSplit (c : Char) : List Char → List (List Char)
  | [] => [[]]
  | a :: rest =>
    if a = c then [] :: charSplit c rest
    else
      match charSplit c rest with
      | [] => [[a]]
      | h :: t => (a :: h) :: t

/-- JavaScript `s.includes(sub)`: contiguous-substring test, via the
character lists. -/
def strIncludes (s sub : String) : Bool :=
  decide (sub.data <:+: s.data)

/-- JavaScript `s.startsWith(pre)`. -/
def strStartsWith (s pre : String) : Bool :=
  decide (pre.data <+: s.data)

/-- JavaScript `s.endsWith(suf)`. -/
def strEndsWith (s suf : String) : Bool :=
  decide (suf.data <:+ s.data)

/-- JavaScript `s.split(sep)` for a one-character separator, at `String`
level. -/
def strSplit (s : String) (c : Char) : List String :=
  (charSplit c s.data).map (fun l => ⟨l⟩)

/-- ASCII lower-casing of one character, as JavaScript `toLowerCase`
acts on the ASCII file names the classifier inspects. -/
def lowerChar (c : Char) : Char :=
  if 'A' ≤ c ∧ c ≤ 'Z' then Char.ofNat (c.toNat + 32) else c

/-- JavaScript `s.toLowerCase()` (the regex `i` flag is embedded by
lower-casing the scrutinee and matching lower-case patterns). -/
def lowerStr (s : String) : String :=
  ⟨s.data.map lowerChar⟩

end Depsort

namespace Depsort

/-!
## Import scanner: package-name resolution (`src/import-scanner.ts`)

`extractPackageName` translates:

```
const cleanSource = source.split('?')[0].split('#')[0]
const parts = cleanSource.split('/')
if (cleanSource.startsWith('@') && parts.length >= 2) {
  return parts[0] + '/' + parts[1]
}
return parts[0]
```
-/

/-- The first line of `extractPackageName`:
`source.split('?')[0].split('#')[0]` (strip any query string or
fragment). -/
def cleanSourceOf (source : List Char) : List Char :=
  (charSplit '#' ((charSplit '?' source).headD [])).headD []

/-- Embedding of the `extractPackageName` function of the import scanner,
on character lists. -/
def extractPackageName (source : List Char) : List Char :=
  let cleanSource := cleanSourceOf source
  let parts := charSplit '/' cleanSource
  if cleanSource.head? = some '@' ∧ 2 ≤ parts.length then
    parts.headD [] ++ '/' :: parts.getD 1 []
  else
    parts.headD []

/-- Version of `extractPackageName` at `String` level. -/
def extractPackageNameStr (source : String) : String :=
  ⟨extractPackageName source.data⟩

theorem charSplit_ne_nil (c : Char) (l : List Char) : charSplit c l ≠ [] := by
  induction l with
  | nil => simp [charSplit]
  | cons a rest ih =>
    simp only [charSplit]
    split
    · simp
    · split
      · simp
      · simp

theorem charSplit_headD (c : Char) (l : List Char) :
    (charSplit c l).headD [] = l.takeWhile (fun x => x ≠ c) := by
  induction l with
  | nil => simp [charSplit]
  | cons a rest ih =>
    simp only [charSplit]
    by_cases h : a = c
    · simp [h, List.takeWhile_cons]
    · rcases hrec : charSplit c rest with _ | ⟨hd, tl⟩
      · exact absurd hrec (charSplit_ne_nil c rest)
      · rw [hrec] at ih
        simp only [List.headD_cons] at ih
        simp [h, hrec, List.takeWhile_cons, ih]

theorem charSplit_mem_not_mem (c : Char) (l : List Char) :
    ∀ p ∈ charSplit c l, c ∉ p := by
  induction l with
  | nil => intro p hp; simp [charSplit] at hp; simp [hp]
  | cons a rest ih =>
    intro p hp
    simp only [charSplit] at hp
    by_cases h : a = c
    · simp [h] at hp
      rcases hp with hp | hp
      · simp [hp]
      · exact ih p hp
    · rcases hrec : charSplit c rest with _ | ⟨hd, tl⟩
      · exact absurd hrec (charSplit_ne_nil c rest)
      · rw [hrec] at hp
        simp [h] at hp
        rcases hp with hp | hp
        · subst hp
          intro hmem
          rcases List.mem_cons.mp hmem with hh | hh
          · exact h hh.symm
          · exact ih hd (by rw [hrec]; exact List.mem_cons_self _ _) hh
        · exact ih p (by rw [hrec]; exact List.mem_cons_of_mem _ hp)

theorem charSplit_mem_subset (c : Char) (l : List Char) :
    ∀ p ∈ charSplit c l, ∀ x ∈ p, x ∈ l := by
  induction l with
  | nil => intro p hp; simp [charSplit] at hp; simp [hp]
  | cons a rest ih =>
    intro p hp x hx
    simp only [charSplit] at hp
    by_cases h : a = c
    · simp [h] at hp
      rcases hp with hp | hp
      · simp [hp] at hx
      · exact List.mem_cons_of_mem _ (ih p hp x hx)
    · rcases hrec : charSplit c rest with _ | ⟨hd, tl⟩
      · exact absurd hrec (charSplit_ne_nil c rest)
      · rw [hrec] at hp
        simp [h] at hp
        rcases hp with hp | hp
        · subst hp
          rcases List.mem_cons.mp hx with hh | hh
          · exact hh ▸ List.mem_cons_self _ _
          · exact List.mem_cons_of_mem _
              (ih hd (by rw [hrec]; exact List.mem_cons_self _ _) x hh)
        · exact List.mem_cons_of_mem _
            (ih p (by rw [hrec]; exact List.mem_cons_of_mem _ hp) x hx)

theorem charSplit_of_not_mem {c : Char} {l : List Char} (h : c ∉ l) :
    charSplit c l = [l] := by
  induction l with
  | nil => simp [charSplit]
  | cons a rest ih =>
    have ha : a ≠ c := fun hh => h (hh ▸ List.mem_cons_self _ _)
    have hr : c ∉ rest := fun hh => h (List.mem_cons_of_mem _ hh)
    simp [charSplit, ha, ih hr]

theorem charSplit_append {c : Char} {a : List Char} (b : List Char)
    (h : c ∉ a) : charSplit c (a ++ c :: b) = a :: charSplit c b := by
  induction a with
  | nil => simp [charSplit]
  | cons x a' ih =>
    have hx : x ≠ c := fun hh => h (hh ▸ List.mem_cons_self _ _)
    have ha' : c ∉ a' := fun hh => h (List.mem_cons_of_mem _ hh)
    simp only [List.cons_append, charSplit, if_neg hx, List.append_eq]
    rw [ih ha']

end Depsort

namespace Depsort

theorem cleanSourceOf_eq_takeWhile (l : List Char) :
    cleanSourceOf l =
      (l.takeWhile (fun x => x ≠ '?')).takeWhile (fun x => x ≠ '#') := by
  simp only [cleanSourceOf, charSplit_headD]

theorem mem_cleanSourceOf {l : List Char} :
    ∀ x ∈ cleanSourceOf l, x ∈ l ∧ x ≠ '?' ∧ x ≠ '#' := by
  rw [cleanSourceOf_eq_takeWhile]
  intro x hx
  have h1 := List.mem_takeWhile_imp hx
  have hx' : x ∈ l.takeWhile (fun x => x ≠ '?') :=
    ( List.takeWhile_prefix _).sublist.subset hx
  have h2 := List.mem_takeWhile_imp hx'
  have hxl : x ∈ l := ( List.takeWhile_prefix _).sublist.subset hx'
  simp only [decide_eq_true_eq] at h1 h2
  exact ⟨hxl, h2, h1⟩

theorem cleanSourceOf_eq_self {m : List Char}
    (h : ∀ x ∈ m, x ≠ '?' ∧ x ≠ '#') : cleanSourceOf m = m := by
  rw [cleanSourceOf_eq_takeWhile]
  have h1 : m.takeWhile (fun x => x ≠ '?') = m :=
    List.takeWhile_eq_self_iff.mpr (by intro x hx; simpa using (h x hx).1)
  rw [h1]
  exact List.takeWhile_eq_self_iff.mpr (by intro x hx; simpa using (h x hx).2)

theorem extractPackageName_idem (l : List Char) :
    extractPackageName (extractPackageName l) = extractPackageName l := by
  by_cases hcond : (cleanSourceOf l).head? = some '@' ∧
      2 ≤ (charSplit '/' (cleanSourceOf l)).length
  · obtain ⟨hat, hlen⟩ := hcond
    rcases hp : charSplit '/' (cleanSourceOf l) with _ | ⟨p0, _ | ⟨p1, rest⟩⟩
    · exact absurd hp (charSplit_ne_nil _ _)
    · rw [hp] at hlen; simp at hlen
    · have h0 : p0 ∈ charSplit '/' (cleanSourceOf l) := by
        rw [hp]; exact List.mem_cons_self _ _
      have h1 : p1 ∈ charSplit '/' (cleanSourceOf l) := by
        rw [hp]; exact List.mem_cons_of_mem _ (List.mem_cons_self _ _)
      have hs0 : '/' ∉ p0 := charSplit_mem_not_mem _ _ p0 h0
      have hs1 : '/' ∉ p1 := charSplit_mem_not_mem _ _ p1 h1
      have hsub0 : ∀ x ∈ p0, x ∈ cleanSourceOf l := charSplit_mem_subset _ _ p0 h0
      have hsub1 : ∀ x ∈ p1, x ∈ cleanSourceOf l := charSplit_mem_subset _ _ p1 h1
      have hr : extractPackageName l = p0 ++ '/' :: p1 := by
        simp only [extractPackageName, hp]
        rw [if_pos ⟨hat, by simp [hp]⟩]
        simp
      have hclean_r : ∀ x ∈ p0 ++ '/' :: p1, x ≠ '?' ∧ x ≠ '#' := by
        intro x hx
        rcases List.mem_append.mp hx with hx | hx
        · exact (mem_cleanSourceOf x (hsub0 x hx)).2
        · rcases List.mem_cons.mp hx with hx | hx
          · subst hx; exact ⟨by decide, by decide⟩
          · exact (mem_cleanSourceOf x (hsub1 x hx)).2
      have hcr : cleanSourceOf (p0 ++ '/' :: p1) = p0 ++ '/' :: p1 :=
        cleanSourceOf_eq_self hclean_r
      have hsplit_r : charSplit '/' (p0 ++ '/' :: p1) = [p0, p1] := by
        rw [charSplit_append _ hs0, charSplit_of_not_mem hs1]
      have hp0 : p0 = (cleanSourceOf l).takeWhile (fun x => x ≠ '/') := by
        have hh := charSplit_headD '/' (cleanSourceOf l)
        rw [hp] at hh
        simpa using hh
      have hhead : (p0 ++ '/' :: p1).head? = some '@' := by
        rcases hc2 : cleanSourceOf l with _ | ⟨a, t⟩
        · rw [hc2] at hat; simp at hat
        · rw [hc2] at hat
          simp only [List.head?_cons, Option.some.injEq] at hat
          subst hat
          rw [hc2] at hp0
          rw [List.takeWhile_cons] at hp0
          simp only [ne_eq, decide_not] at hp0
          norm_num at hp0
          rw [hp0]
          simp
      rw [hr]
      rw [show extractPackageName (p0 ++ '/' :: p1) = p0 ++ '/' :: p1 from ?_]
      · simp only [extractPackageName, hcr, hsplit_r]
        rw [if_pos ⟨hhead, by simp⟩]
        simp
  · have hr : extractPackageName l =
        (cleanSourceOf l).takeWhile (fun x => x ≠ '/') := by
      simp only [extractPackageName]
      rw [if_neg hcond, ← charSplit_headD]
    have hsubr : ∀ x ∈ (cleanSourceOf l).takeWhile (fun x => x ≠ '/'),
        x ∈ cleanSourceOf l :=
      fun x hx => ( List.takeWhile_prefix _).sublist.subset hx
    have hsr : '/' ∉ (cleanSourceOf l).takeWhile (fun x => x ≠ '/') := by
      intro hmem
      have := List.mem_takeWhile_imp hmem
      simp at this
    have hcr : cleanSourceOf ((cleanSourceOf l).takeWhile (fun x => x ≠ '/')) =
        (cleanSourceOf l).takeWhile (fun x => x ≠ '/') :=
      cleanSourceOf_eq_self (fun x hx => (mem_cleanSourceOf x (hsubr x hx)).2)
    have hsplit : charSplit '/' ((cleanSourceOf l).takeWhile (fun x => x ≠ '/')) =
        [(cleanSourceOf l).takeWhile (fun x => x ≠ '/')] :=
      charSplit_of_not_mem hsr
    rw [hr]
    simp only [extractPackageName, hcr, hsplit]
    rw [if_neg (by intro hc; exact absurd hc.2 (by simp))]
    simp

end Depsort

namespace Depsort

/-- Claim C7: package-name resolution strips any query string or fragment,
then for a specifier starting with `@` returns the first two
slash-separated segments joined by a slash, and otherwise the first
segment alone; consequently it is idempotent:
`extractPackageName "@scope/pkg/sub/path" = extractPackageName "@scope/pkg"
 = "@scope/pkg"`, `extractPackageName "pkg/sub" = "pkg"`, and for every
input `s`, `extractPackageName (extractPackageName s) =
extractPackageName s`. -/
theorem C7_extractPackageName_idempotent :
    extractPackageNameStr "@scope/pkg/sub/path" = "@scope/pkg" ∧
    extractPackageNameStr "@scope/pkg" = "@scope/pkg" ∧
    extractPackageNameStr "pkg/sub" = "pkg" ∧
    ∀ s : String,
      extractPackageNameStr (extractPackageNameStr s) =
        extractPackageNameStr s := by
  refine ⟨by decide, by decide, by decide, fun s => ?_⟩
  simp only [extractPackageNameStr]
  exact congrArg (fun l => (⟨l⟩ : String)) (extractPackageName_idem s.data)

end Depsort

namespace Depsort

/-!
## File classifier (`src/file-classifier.ts`)

`classifyFile` receives the root-relative path
(`path.relative(config.rootDir, filePath)`) as its argument; the file
name agrees with `path.basename(filePath)` for files below the project
root.
-/

/-- Embedding of Node `path.basename` for forward-slash paths: trailing
slashes are ignored and the last path segment is returned. -/
def basenameStr (s : String) : String :=
  let l := (s.data.reverse.dropWhile (fun c => c = '/')).reverse
  ⟨(l.reverse.takeWhile (fun c => c ≠ '/')).reverse⟩

/-- Embedding of Node `path.dirname` for forward-slash paths. -/
def dirnameStr (s : String) : String :=
  let l := (s.data.reverse.dropWhile (fun c => c = '/')).reverse
  let d := (l.reverse.dropWhile (fun c => c ≠ '/')).reverse
  if d.isEmpty then "."
  else if d.all (fun c => c = '/') then "/"
  else ⟨(d.reverse.dropWhile (fun c => c = '/')).reverse⟩

/-- Embedding of the backslash normalization of `classifyFile`
(JavaScript `relativePath.replace` of every backslash by a slash). -/
def normalizeSlashes (s : String) : String :=
  ⟨s.data.map (fun c => if c = '\\' then '/' else c)⟩

/-- The slice of `ProjectConfig` (`src/types.ts`) read by the core: the
declared runtime dependency names (the keys of
`packageJson.dependencies`, in manifest order) and the source, test and
build directory lists.  `rootDir` is accounted for by passing
root-relative paths to `classifyFile`. -/
structure ProjectConfig where
  dependencies : List String
  sourceDirs : List String
  testDirs : List String
  buildDirs : List String

/-- Model of `FileClassification` (`src/types.ts`). -/
structure FileClassification where
  isProduction : Bool
  isTest : Bool
  isBuild : Bool
  isConfig : Bool
  reason : String
deriving DecidableEq

/-- The lower-cased suffixes matched by the anchored test-name regex of
`classifyFile` (dot, `test` or `spec`, dot, one of the four script
extensions). -/
def testFileSuffixes : List String :=
  [".test.ts", ".test.tsx", ".test.js", ".test.jsx",
   ".spec.ts", ".spec.tsx", ".spec.js", ".spec.jsx"]

/-- The test-file name check of `classifyFile`: the case-insensitive
test/spec suffix regex, or the same with a trailing source-map suffix. -/
def isTestFileName (fileName : String) : Bool :=
  testFileSuffixes.any (fun suf => strEndsWith (lowerStr fileName) suf) ||
  testFileSuffixes.any (fun suf =>
    strEndsWith (lowerStr fileName) (suf ++ ".map"))

/-- The tool names of the anchored configuration-file regex of
`classifyFile`. -/
def configToolNames : List String :=
  ["jest", "vitest", "vite", "webpack", "rollup", "esbuild", "tsup",
   "tsx", "ts-node", "babel", "eslint", "prettier", ".prettierrc",
   ".eslintrc"]

/-- The extensions of the anchored configuration-file regex. -/
def configExtensions : List String :=
  ["js", "ts", "json", "mjs", "cjs"]

/-- The dotfile beginnings of the second configuration-file regex. -/
def configDotfileStarts : List String :=
  [".eslintrc", ".prettierrc", ".babelrc", ".nycrc"]

/-- The configuration-file name check of `classifyFile`: the anchored
case-insensitive tool regex (tool name, then a dot, an optional
`config.` part and one of the five extensions), the dotfile regex
(anchored only at the start), or exactly `tsconfig.json` or
`package.json`. -/
def isConfigFileName (fileName : String) : Bool :=
  (configToolNames.any (fun tool => configExtensions.any (fun ext =>
      lowerStr fileName == tool ++ "." ++ ext ||
      lowerStr fileName == tool ++ ".config." ++ ext))) ||
  configDotfileStarts.any (fun pre => strStartsWith (lowerStr fileName) pre) ||
  fileName == "tsconfig.json" || fileName == "package.json"

/-- The build-directory membership check of `classifyFile`. -/
def isInBuildDir (normalizedPath : String) (config : ProjectConfig) : Bool :=
  config.buildDirs.any (fun buildDir =>
    strStartsWith normalizedPath (buildDir ++ "/") ||
    strStartsWith normalizedPath ("./" ++ buildDir ++ "/"))

/-- The test-directory membership check of `classifyFile`. -/
def isInTestDir (normalizedPath dirName : String) (config : ProjectConfig) :
    Bool :=
  config.testDirs.any (fun testDir =>
    strIncludes normalizedPath ("/" ++ testDir ++ "/") ||
    strStartsWith normalizedPath (testDir ++ "/") ||
    dirName == testDir)

/-- Embedding of `isInSourceDir` of `src/file-classifier.ts`: when the
source-directory list contains the root entry, first the root-level test
(one single path part, or a first part equal to the dot), then the
`some` over the source directories, whose callback returns true at once
for the root entry and otherwise compares path beginnings. -/
def isInSourceDir (normalizedPath : String) (config : ProjectConfig) : Bool :=
  if config.sourceDirs.contains "." ∧
      ((strSplit normalizedPath '/').length = 1 ∨
        (strSplit normalizedPath '/').headD "" = ".") then
    true
  else
    config.sourceDirs.any (fun sourceDir =>
      if sourceDir = "." then true
      else
        strStartsWith normalizedPath (sourceDir ++ "/") ||
        strStartsWith normalizedPath ("./" ++ sourceDir ++ "/"))

/-- Embedding of `classifyFile` (`src/file-classifier.ts`), on the
root-relative path. -/
def classifyFile (relativePath : String) (config : ProjectConfig) :
    FileClassification :=
  let normalizedPath := normalizeSlashes relativePath
  let fileName := basenameStr normalizedPath
  let dirName := dirnameStr normalizedPath
  if isInBuildDir normalizedPath config then
    { isProduction := false, isTest := false, isBuild := true,
      isConfig := false, reason := "File is in build directory" }
  else if isInTestDir normalizedPath dirName config || isTestFileName fileName then
    { isProduction := false, isTest := true, isBuild := false,
      isConfig := false,
      reason := if isInTestDir normalizedPath dirName config then
          "File is in test directory"
        else "File matches test pattern" }
  else if isConfigFileName fileName && !(isInSourceDir normalizedPath config) then
    { isProduction := false, isTest := false, isBuild := false,
      isConfig := true, reason := "File is a configuration file" }
  else
    let isInSource := isInSourceDir normalizedPath config
    let isTypeDefinition := strEndsWith fileName ".d.ts"
    let isProduction := isInSource && !(isTestFileName fileName) &&
      !(isConfigFileName fileName) && !(isInBuildDir normalizedPath config)
    { isProduction := isProduction,
      isTest := isInTestDir normalizedPath dirName config ||
        isTestFileName fileName,
      isBuild := isInBuildDir normalizedPath config,
      isConfig := isConfigFileName fileName && !isInSource,
      reason := if isProduction then "File is in source directory"
        else if isTypeDefinition then "File is a type definition"
        else "File classification: source=" ++ toString isInSource ++
          ", test=" ++ toString (isTestFileName fileName ||
            isInTestDir normalizedPath dirName config) ++
          ", config=" ++ toString (isConfigFileName fileName) }

end Depsort

namespace Depsort


end Depsort

namespace Depsort

/-- A project layout whose only source directory is the root entry, used
as the failing input of claim C1. -/
def rootSourceLayout : ProjectConfig :=
  { dependencies := [], sourceDirs := ["."], testDirs := [],
    buildDirs := [] }

/-- Claim C1, behavior of the code at the failing input: with the
source-directory set containing only the root entry, the file
lib/util.ts — whose root-relative normalized path has a subdirectory
component (two path parts) — is nevertheless counted as lying under a
source directory, and rule 4 classifies it as production.  The callback
the code passes to `sourceDirs.some` returns true unconditionally on the
root entry, so every path is put under source, contrary to the
specification and to the root-level-only intent of the comment and the
preceding special case inside `isInSourceDir` (which the callback makes
unreachable in effect). -/
theorem C1_root_source_dir_puts_subdirectory_file_under_source :
    (strSplit (normalizeSlashes "lib/util.ts") '/').length = 2 ∧
    isInSourceDir (normalizeSlashes "lib/util.ts") rootSourceLayout = true ∧
    (classifyFile "lib/util.ts" rootSourceLayout).isProduction = true := by
  refine ⟨by decide, by decide, by decide⟩

/-- A typical project layout (source under src, tests under test, build
output under dist), used as a concrete input by several witnesses. -/
def sampleLayout : ProjectConfig :=
  { dependencies := ["lodash"], sourceDirs := ["src"], testDirs := ["test"],
    buildDirs := ["dist"] }

/-- Claim C5: for every file path and project layout, `isProduction` is
true only if the file lies under a configured source directory and
`isTest`, `isBuild` and `isConfig` are all false; in particular
`isProduction` and `isTest` are never both true. -/
theorem C5_isProduction_only_if_source_and_not_test_build_config
    (relativePath : String) (config : ProjectConfig)
    (h : (classifyFile relativePath config).isProduction = true) :
    isInSourceDir (normalizeSlashes relativePath) config = true ∧
    (classifyFile relativePath config).isTest = false ∧
    (classifyFile relativePath config).isBuild = false ∧
    (classifyFile relativePath config).isConfig = false := by
  simp only [classifyFile] at h ⊢
  split_ifs at h ⊢ with hb ht hc hp <;> simp_all

/-- Witness for claim C5 at a concrete production file. -/
theorem C5_isProduction_only_if_source_and_not_test_build_config_witness :
    (classifyFile "src/app.ts" sampleLayout).isProduction = true ∧
    (isInSourceDir (normalizeSlashes "src/app.ts") sampleLayout = true ∧
      (classifyFile "src/app.ts" sampleLayout).isTest = false ∧
      (classifyFile "src/app.ts" sampleLayout).isBuild = false ∧
      (classifyFile "src/app.ts" sampleLayout).isConfig = false) :=
  ⟨by decide,
    C5_isProduction_only_if_source_and_not_test_build_config
      "src/app.ts" sampleLayout (by decide)⟩

/-- Claim C6: every file whose root-relative normalized path falls under
a configured build directory is classified as build output, with all
other flags false, regardless of its name. -/
theorem C6_build_dir_beats_everything
    (relativePath : String) (config : ProjectConfig)
    (h : isInBuildDir (normalizeSlashes relativePath) config = true) :
    classifyFile relativePath config =
      { isProduction := false, isTest := false, isBuild := true,
        isConfig := false, reason := "File is in build directory" } := by
  simp [classifyFile, h]

/-- Witness for claim C6 at a test-named file under the build directory. -/
theorem C6_build_dir_beats_everything_witness :
    isInBuildDir (normalizeSlashes "dist/app.test.ts") sampleLayout = true ∧
    classifyFile "dist/app.test.ts" sampleLayout =
      { isProduction := false, isTest := false, isBuild := true,
        isConfig := false, reason := "File is in build directory" } :=
  ⟨by decide,
    C6_build_dir_beats_everything "dist/app.test.ts" sampleLayout (by decide)⟩

end Depsort

namespace Depsort

/-!
## Static import declarations and the type-only flag
(`src/import-scanner.ts`)
-/

/-- An import specifier of a static import declaration, restricted to
the two fields `hasTypeOnlySpecifiers` reads: its own kind marker and
whether its imported field is an identifier node. -/
structure ImportSpecifier where
  importKind : String
  importedIsIdentifier : Bool

/-- A static import declaration node, restricted to the fields the
scanner reads for the type-only flag: the declaration-level kind marker
and the specifier list. -/
structure ImportDeclarationNode where
  importKind : String
  specifiers : List ImportSpecifier

/-- Embedding of `hasTypeOnlySpecifiers` (`src/import-scanner.ts`):
false for an empty specifier list, otherwise `every` specifier must pass
one of the two type-marker checks (the second check — identifier
imported field and kind marker — is subsumed by the first). -/
def hasTypeOnlySpecifiers (node : ImportDeclarationNode) : Bool :=
  if node.specifiers.isEmpty then false
  else
    node.specifiers.all (fun spec =>
      if spec.importKind == "type" then true
      else if spec.importedIsIdentifier && (spec.importKind == "type") then
        true
      else false)

/-- The type-only flag recorded for a static import declaration by
`extractImportsFromFile`: the declaration kind marker is the type
marker, or `hasTypeOnlySpecifiers` holds. -/
def importDeclIsTypeOnly (node : ImportDeclarationNode) : Bool :=
  node.importKind == "type" || hasTypeOnlySpecifiers node

/-- A side-effect import (no specifiers at all, not marked type-only at
the declaration). -/
def sideEffectImportNode : ImportDeclarationNode :=
  { importKind := "value", specifiers := [] }

/-- A declaration mixing one inline type specifier and one value
specifier. -/
def mixedImportNode : ImportDeclarationNode :=
  { importKind := "value",
    specifiers :=
      [{ importKind := "type", importedIsIdentifier := true },
       { importKind := "value", importedIsIdentifier := true }] }

/-- Claim C4, counterexample to the literal statement: a side-effect
module load has no specifiers, so the clause that every one of its specifiers
is individually marked type-only is vacuously true, yet the scanner
records the declaration as a runtime import. -/
theorem C4_counterexample_empty_specifier_list :
    ¬ (importDeclIsTypeOnly sideEffectImportNode = true ↔
        (sideEffectImportNode.importKind = "type" ∨
          ∀ spec ∈ sideEffectImportNode.specifiers,
            spec.importKind = "type")) := by
  decide

/-- Claim C4 as amended: a static import declaration is recorded as
type-only exactly when the declaration itself is marked type-only, or it
has at least one specifier and every one of its specifiers is
individually marked type-only; in particular a declaration mixing one
type specifier and one value specifier produces a runtime record. -/
theorem C4_type_only_iff_decl_marked_or_all_specifiers_marked :
    (∀ node : ImportDeclarationNode,
      importDeclIsTypeOnly node = true ↔
        (node.importKind = "type" ∨
          (node.specifiers ≠ [] ∧
            ∀ spec ∈ node.specifiers, spec.importKind = "type"))) ∧
    importDeclIsTypeOnly mixedImportNode = false := by
  constructor
  · intro node
    have habs : ∀ (p q : Prop), (p ∨ q ∧ p) ↔ p :=
      fun p q => ⟨fun h => h.elim id And.right, Or.inl⟩
    rcases hspec : node.specifiers with _ | ⟨s, rest⟩ <;>
      simp [importDeclIsTypeOnly, hasTypeOnlySpecifiers, hspec,
        List.all_eq_true, habs]
  · decide

end Depsort

namespace Depsort

/-!
## Dependency analyzer (`src/analyzer.ts`)
-/

/-- Model of `ImportInfo` (`src/types.ts`): one extracted import reference.
`filePath` is kept root-relative, matching the path handed to
`classifyFile`. -/
structure ImportInfo where
  packageName : String
  isTypeOnly : Bool
  filePath : String
  line : Nat
  column : Nat
deriving DecidableEq

/-- Model of `PackageUsage` (`src/types.ts`). -/
structure PackageUsage where
  packageName : String
  imports : List ImportInfo
  usedInProduction : Bool
  usedInDev : Bool
  onlyTypeImports : Bool
  canMoveToDevDependencies : Bool
  reason : String
deriving DecidableEq

/-- Model of `AnalysisResult` (`src/types.ts`). -/
structure AnalysisResult where
  packagesToMove : List PackageUsage
  packagesToKeep : List PackageUsage
  totalDependencies : Nat
  canMoveCount : Nat
deriving DecidableEq

/-- The five accumulator variables of the loop of
`analyzePackageUsage`. -/
structure UsageAcc where
  usedInProduction : Bool
  usedInDev : Bool
  hasRuntimeInProduction : Bool
  hasTypeOnlyInProduction : Bool
  allImportsAreTypeOnly : Bool
deriving DecidableEq

/-- One iteration of the loop of `analyzePackageUsage` over the import
records of a package. -/
def usageStep (config : ProjectConfig) (acc : UsageAcc) (imp : ImportInfo) :
    UsageAcc :=
  let fc := classifyFile imp.filePath config
  if fc.isProduction then
    if imp.isTypeOnly then
      { acc with usedInProduction := true, hasTypeOnlyInProduction := true }
    else
      { acc with
          usedInProduction := true
          hasRuntimeInProduction := true
          allImportsAreTypeOnly := false }
  else if fc.isTest || fc.isConfig || fc.isBuild then
    if !imp.isTypeOnly then
      { acc with usedInDev := true, allImportsAreTypeOnly := false }
    else
      { acc with usedInDev := true }
  else acc

/-- The loop of `analyzePackageUsage`, from the initial values of the
five accumulator variables. -/
def usageAccOf (config : ProjectConfig) (imports : List ImportInfo) :
    UsageAcc :=
  imports.foldl (usageStep config)
    { usedInProduction := false, usedInDev := false,
      hasRuntimeInProduction := false, hasTypeOnlyInProduction := false,
      allImportsAreTypeOnly := true }

/-- Embedding of `analyzePackageUsage` (`src/analyzer.ts`). -/
def analyzePackageUsage (packageName : String) (imports : List ImportInfo)
    (config : ProjectConfig) : PackageUsage :=
  if imports.isEmpty then
    { packageName := packageName, imports := [],
      usedInProduction := false, usedInDev := false,
      onlyTypeImports := false, canMoveToDevDependencies := false,
      reason :=
        "Package not found in imports (may be used in scripts or other ways)" }
  else
    let acc := usageAccOf config imports
    let verdict :=
      if !acc.usedInProduction then
        (true, "Only used in dev/test/config files")
      else if acc.hasTypeOnlyInProduction && !acc.hasRuntimeInProduction then
        (true, "Only type-only imports in production code")
      else if acc.hasRuntimeInProduction then
        (false, "Has runtime imports in production code")
      else
        (false, "Used in production code")
    { packageName := packageName, imports := imports,
      usedInProduction := acc.usedInProduction,
      usedInDev := acc.usedInDev,
      onlyTypeImports := acc.allImportsAreTypeOnly &&
        decide (0 < imports.length),
      canMoveToDevDependencies := verdict.1,
      reason := verdict.2 }

/-- One step of the grouping loop of `analyzeDependencies`: append the
record at the end of the entry of its package, or add a new entry at the
end — the insertion-order Map of the source, as an association list. -/
def addImport (m : List (String × List ImportInfo)) (imp : ImportInfo) :
    List (String × List ImportInfo) :=
  match m with
  | [] => [(imp.packageName, [imp])]
  | (k, v) :: rest =>
    if k = imp.packageName then (k, v ++ [imp]) :: rest
    else (k, v) :: addImport rest imp

/-- Lookup in the grouping map (`importsByPackage.get`). -/
def mapGet (m : List (String × List ImportInfo)) (k : String) :
    Option (List ImportInfo) :=
  match m with
  | [] => none
  | (k2, v) :: rest => if k2 = k then some v else mapGet rest k

/-- The grouping of all import records by package name
(`importsByPackage` of `analyzeDependencies`). -/
def groupImports (imports : List ImportInfo) :
    List (String × List ImportInfo) :=
  imports.foldl addImport []

/-- The group of one package, lookup defaulted to the empty list
(`importsByPackage.get(packageName)`, with the empty list when the
package has no entry). -/
def packageGroup (imports : List ImportInfo) (pkg : String) :
    List ImportInfo :=
  (mapGet (groupImports imports) pkg).getD []

/-- Embedding of `analyzeDependencies` (`src/analyzer.ts`). -/
def analyzeDependencies (config : ProjectConfig)
    (imports : List ImportInfo) : AnalysisResult :=
  let packageUsages := config.dependencies.map (fun packageName =>
    analyzePackageUsage packageName (packageGroup imports packageName) config)
  let packagesToMove := packageUsages.filter
    (fun pkg => pkg.canMoveToDevDependencies)
  let packagesToKeep := packageUsages.filter
    (fun pkg => !pkg.canMoveToDevDependencies)
  { packagesToMove := packagesToMove, packagesToKeep := packagesToKeep,
    totalDependencies := config.dependencies.length,
    canMoveCount := packagesToMove.length }

/-- The record lies in a production file, per the classification the
analyzer loop performs. -/
def isProductionImport (config : ProjectConfig) (imp : ImportInfo) : Bool :=
  (classifyFile imp.filePath config).isProduction

/-- The record lies in a test, configuration or build file. -/
def isDevImport (config : ProjectConfig) (imp : ImportInfo) : Bool :=
  !(classifyFile imp.filePath config).isProduction &&
    ((classifyFile imp.filePath config).isTest ||
      (classifyFile imp.filePath config).isConfig ||
      (classifyFile imp.filePath config).isBuild)

theorem usageAcc_foldl (config : ProjectConfig) (imports : List ImportInfo) :
    ∀ acc : UsageAcc,
      imports.foldl (usageStep config) acc =
        { usedInProduction := acc.usedInProduction ||
            imports.any (isProductionImport config),
          usedInDev := acc.usedInDev || imports.any (isDevImport config),
          hasRuntimeInProduction := acc.hasRuntimeInProduction ||
            imports.any (fun imp =>
              isProductionImport config imp && !imp.isTypeOnly),
          hasTypeOnlyInProduction := acc.hasTypeOnlyInProduction ||
            imports.any (fun imp =>
              isProductionImport config imp && imp.isTypeOnly),
          allImportsAreTypeOnly := acc.allImportsAreTypeOnly &&
            imports.all (fun imp => imp.isTypeOnly ||
              (!(isProductionImport config imp) &&
                !(isDevImport config imp))) } := by
  induction imports with
  | nil => intro acc; simp
  | cons imp rest ih =>
    intro acc
    simp only [List.foldl_cons, List.any_cons, List.all_cons]
    rw [ih]
    simp only [usageStep, isProductionImport, isDevImport]
    cases hprod : (classifyFile imp.filePath config).isProduction <;>
      cases htype : imp.isTypeOnly
    · cases hdev : ((classifyFile imp.filePath config).isTest ||
          (classifyFile imp.filePath config).isConfig ||
          (classifyFile imp.filePath config).isBuild) <;>
        simp [hprod, htype, hdev, Bool.or_assoc, Bool.and_assoc]
    · cases hdev : ((classifyFile imp.filePath config).isTest ||
          (classifyFile imp.filePath config).isConfig ||
          (classifyFile imp.filePath config).isBuild) <;>
        simp [hprod, htype, hdev, Bool.or_assoc, Bool.and_assoc]
    · simp [hprod, htype, Bool.or_assoc, Bool.and_assoc]
    · simp [hprod, htype, Bool.or_assoc, Bool.and_assoc]

theorem usageAccOf_eq (config : ProjectConfig) (imports : List ImportInfo) :
    usageAccOf config imports =
      { usedInProduction := imports.any (isProductionImport config),
        usedInDev := imports.any (isDevImport config),
        hasRuntimeInProduction := imports.any (fun imp =>
          isProductionImport config imp && !imp.isTypeOnly),
        hasTypeOnlyInProduction := imports.any (fun imp =>
          isProductionImport config imp && imp.isTypeOnly),
        allImportsAreTypeOnly := imports.all (fun imp => imp.isTypeOnly ||
          (!(isProductionImport config imp) && !(isDevImport config imp))) } := by
  rw [usageAccOf, usageAcc_foldl]
  simp

end Depsort

namespace Depsort

theorem isEmpty_false_of_ne_nil {α : Type} {l : List α} (h : l ≠ []) :
    l.isEmpty = false := by
  cases l with
  | nil => exact absurd rfl h
  | cons a t => rfl

theorem mapGet_addImport_self (m : List (String × List ImportInfo))
    (imp : ImportInfo) :
    mapGet (addImport m imp) imp.packageName =
      some ((mapGet m imp.packageName).getD [] ++ [imp]) := by
  induction m with
  | nil => simp [addImport, mapGet]
  | cons kv rest ih =>
    obtain ⟨k, v⟩ := kv
    by_cases h : k = imp.packageName
    · simp [addImport, mapGet, h]
    · simp [addImport, mapGet, h, ih]

theorem mapGet_addImport_ne (m : List (String × List ImportInfo))
    (imp : ImportInfo) {k : String} (h : k ≠ imp.packageName) :
    mapGet (addImport m imp) k = mapGet m k := by
  induction m with
  | nil => simp [addImport, mapGet, Ne.symm h]
  | cons kv rest ih =>
    obtain ⟨k2, v⟩ := kv
    by_cases h2 : k2 = imp.packageName
    · subst h2
      simp [addImport, mapGet, Ne.symm h]
    · simp [addImport, mapGet, h2, ih]

theorem packageGroup_foldl (pkg : String) (imports : List ImportInfo) :
    ∀ m, (mapGet (imports.foldl addImport m) pkg).getD [] =
      (mapGet m pkg).getD [] ++
        imports.filter (fun imp => imp.packageName == pkg) := by
  induction imports with
  | nil => intro m; simp
  | cons imp rest ih =>
    intro m
    simp only [List.foldl_cons, List.filter_cons]
    by_cases h : imp.packageName = pkg
    · subst h
      rw [ih, mapGet_addImport_self]
      simp
    · rw [ih, mapGet_addImport_ne _ _ (Ne.symm h)]
      simp [h]

/-- The group of a package is the sublist of the records carrying its
name, in encounter order: the insertion-order grouping Map of
`analyzeDependencies` refines list filtering. -/
theorem packageGroup_eq_filter (imports : List ImportInfo) (pkg : String) :
    packageGroup imports pkg =
      imports.filter (fun imp => imp.packageName == pkg) := by
  have h := packageGroup_foldl pkg imports []
  simpa [packageGroup, groupImports, mapGet] using h

end Depsort

namespace Depsort

/-- Claim C3: a declared runtime dependency whose name matches no
extracted import record at all has the empty group, and the analyzer
returns the conservative keep verdict with the not-found reason,
regardless of all other inputs. -/
theorem C3_unreferenced_dependency_is_kept
    (pkg : String) (config : ProjectConfig) (imports : List ImportInfo)
    (h : ∀ imp ∈ imports, imp.packageName ≠ pkg) :
    packageGroup imports pkg = [] ∧
    (analyzePackageUsage pkg (packageGroup imports pkg)
        config).canMoveToDevDependencies = false ∧
    (analyzePackageUsage pkg (packageGroup imports pkg) config).reason =
      "Package not found in imports (may be used in scripts or other ways)" := by
  have hg : packageGroup imports pkg = [] := by
    rw [packageGroup_eq_filter]
    refine List.filter_eq_nil_iff.mpr ?_
    intro imp hmem
    simp [h imp hmem]
  refine ⟨hg, ?_, ?_⟩ <;> rw [hg] <;> simp [analyzePackageUsage]

/-- A single runtime import of the react package from a production
file. -/
def reactImports : List ImportInfo :=
  [⟨"react", false, "src/app.ts", 1, 0⟩]

/-- Witness for claim C3: lodash is declared but never referenced. -/
theorem C3_unreferenced_dependency_is_kept_witness :
    (∀ imp ∈ reactImports, imp.packageName ≠ "lodash") ∧
    (packageGroup reactImports "lodash" = [] ∧
      (analyzePackageUsage "lodash" (packageGroup reactImports "lodash")
          sampleLayout).canMoveToDevDependencies = false ∧
      (analyzePackageUsage "lodash" (packageGroup reactImports "lodash")
          sampleLayout).reason =
        "Package not found in imports (may be used in scripts or other ways)") :=
  ⟨by decide,
    C3_unreferenced_dependency_is_kept "lodash" sampleLayout reactImports
      (by decide)⟩

end Depsort

namespace Depsort

/-- Claim C2: for a declared runtime dependency with a non-empty group,
a type-only record in a production file with no runtime record in any
production file yields the move verdict with the type-only reason, while
any runtime record in a production file yields the keep verdict; hence
one added value import in a production file flips a type-only verdict
from move to keep. -/
theorem C2_type_only_production_moves_runtime_production_keeps
    (pkg : String) (imports : List ImportInfo) (config : ProjectConfig)
    (hne : imports ≠ []) :
    ((∃ imp ∈ imports,
        isProductionImport config imp = true ∧ imp.isTypeOnly = true) →
      (∀ imp ∈ imports,
        isProductionImport config imp = true → imp.isTypeOnly = true) →
      (analyzePackageUsage pkg imports config).canMoveToDevDependencies =
          true ∧
        (analyzePackageUsage pkg imports config).reason =
          "Only type-only imports in production code") ∧
    ((∃ imp ∈ imports,
        isProductionImport config imp = true ∧ imp.isTypeOnly = false) →
      (analyzePackageUsage pkg imports config).canMoveToDevDependencies =
        false) := by
  have hne' : imports.isEmpty = false := isEmpty_false_of_ne_nil hne
  constructor
  · intro hex hall
    obtain ⟨imp, hmem, hp, ht⟩ := hex
    have hU : imports.any (isProductionImport config) = true :=
      List.any_eq_true.mpr ⟨imp, hmem, hp⟩
    have hT : imports.any (fun i =>
        isProductionImport config i && i.isTypeOnly) = true :=
      List.any_eq_true.mpr ⟨imp, hmem, by simp [hp, ht]⟩
    have hR : imports.any (fun i =>
        isProductionImport config i && !i.isTypeOnly) = false := by
      refine List.any_eq_false.mpr ?_
      intro i hi
      cases hpi : isProductionImport config i
      · simp
      · simp [hall i hi hpi]
    simp [analyzePackageUsage, hne', usageAccOf_eq, hU, hT, hR]
  · intro hex
    obtain ⟨imp, hmem, hp, ht⟩ := hex
    have hU : imports.any (isProductionImport config) = true :=
      List.any_eq_true.mpr ⟨imp, hmem, hp⟩
    have hR : imports.any (fun i =>
        isProductionImport config i && !i.isTypeOnly) = true :=
      List.any_eq_true.mpr ⟨imp, hmem, by simp [hp, ht]⟩
    simp [analyzePackageUsage, hne', usageAccOf_eq, hU, hR]

/-- A single type-only import of pkg from a production file. -/
def typeOnlyProdImports : List ImportInfo :=
  [⟨"pkg", true, "src/app.ts", 1, 0⟩]

/-- The same group after adding one value import of pkg in a production
file. -/
def mixedProdImports : List ImportInfo :=
  [⟨"pkg", true, "src/app.ts", 1, 0⟩, ⟨"pkg", false, "src/app.ts", 2, 0⟩]

/-- Witness for claim C2: the type-only group moves; after one value
reference in a production file the same package is kept. -/
theorem C2_type_only_production_moves_runtime_production_keeps_witness :
    (typeOnlyProdImports ≠ [] ∧
      ((analyzePackageUsage "pkg" typeOnlyProdImports
          sampleLayout).canMoveToDevDependencies = true ∧
        (analyzePackageUsage "pkg" typeOnlyProdImports sampleLayout).reason =
          "Only type-only imports in production code")) ∧
    (mixedProdImports ≠ [] ∧
      (analyzePackageUsage "pkg" mixedProdImports
          sampleLayout).canMoveToDevDependencies = false) :=
  ⟨⟨by decide,
      (C2_type_only_production_moves_runtime_production_keeps "pkg"
          typeOnlyProdImports sampleLayout (by decide)).1
        (by decide) (by decide)⟩,
    ⟨by decide,
      (C2_type_only_production_moves_runtime_production_keeps "pkg"
          mixedProdImports sampleLayout (by decide)).2 (by decide)⟩⟩

end Depsort

namespace Depsort

/-- Claim C8: the fallback branch of the decision of
`analyzePackageUsage` is unreachable for a non-empty group: whenever the
accumulated usedInProduction flag is true, at least one of
hasTypeOnlyInProduction or hasRuntimeInProduction is true as well, so
one of the first three branches fires and the fallback reason is never
returned. -/
theorem C8_fallback_branch_unreachable
    (pkg : String) (imports : List ImportInfo) (config : ProjectConfig)
    (hne : imports ≠ []) :
    ((usageAccOf config imports).usedInProduction = true →
      (usageAccOf config imports).hasTypeOnlyInProduction = true ∨
        (usageAccOf config imports).hasRuntimeInProduction = true) ∧
    (analyzePackageUsage pkg imports config).reason ≠
      "Used in production code" := by
  have hne' : imports.isEmpty = false := isEmpty_false_of_ne_nil hne
  have hinv : (usageAccOf config imports).usedInProduction = true →
      (usageAccOf config imports).hasTypeOnlyInProduction = true ∨
        (usageAccOf config imports).hasRuntimeInProduction = true := by
    rw [usageAccOf_eq]
    intro hU
    simp only at hU ⊢
    obtain ⟨imp, hmem, hp⟩ := List.any_eq_true.mp hU
    cases ht : imp.isTypeOnly
    · right
      exact List.any_eq_true.mpr ⟨imp, hmem, by simp [hp, ht]⟩
    · left
      exact List.any_eq_true.mpr ⟨imp, hmem, by simp [hp, ht]⟩
  refine ⟨hinv, ?_⟩
  cases hu : (usageAccOf config imports).usedInProduction
  · simp [analyzePackageUsage, hne', hu]
  · cases hr : (usageAccOf config imports).hasRuntimeInProduction
    · cases htp : (usageAccOf config imports).hasTypeOnlyInProduction
      · rcases hinv hu with hh | hh
        · exact absurd hh (by simp [htp])
        · exact absurd hh (by simp [hr])
      · simp [analyzePackageUsage, hne', hu, hr, htp]
    · simp [analyzePackageUsage, hne', hu, hr]

/-- Witness for claim C8 at a concrete non-empty group. -/
theorem C8_fallback_branch_unreachable_witness :
    reactImports ≠ [] ∧
    (((usageAccOf sampleLayout reactImports).usedInProduction = true →
        (usageAccOf sampleLayout reactImports).hasTypeOnlyInProduction =
            true ∨
          (usageAccOf sampleLayout reactImports).hasRuntimeInProduction =
            true) ∧
      (analyzePackageUsage "react" reactImports sampleLayout).reason ≠
        "Used in production code") :=
  ⟨by decide,
    C8_fallback_branch_unreachable "react" reactImports sampleLayout
      (by decide)⟩

/-- Claim C10: records of files whose classification has all four flags
false count toward neither usedInProduction nor usedInDev; a dependency
whose records all lie in such files gets both flags false and the move
verdict with the dev-only reason, although it is used in no dev, test or
configuration file. -/
theorem C10_unclassified_files_fall_through_to_move
    (pkg : String) (imports : List ImportInfo) (config : ProjectConfig)
    (hne : imports ≠ [])
    (hall : ∀ imp ∈ imports,
      (classifyFile imp.filePath config).isProduction = false ∧
      (classifyFile imp.filePath config).isTest = false ∧
      (classifyFile imp.filePath config).isBuild = false ∧
      (classifyFile imp.filePath config).isConfig = false) :
    (analyzePackageUsage pkg imports config).usedInProduction = false ∧
    (analyzePackageUsage pkg imports config).usedInDev = false ∧
    (analyzePackageUsage pkg imports config).canMoveToDevDependencies =
      true ∧
    (analyzePackageUsage pkg imports config).reason =
      "Only used in dev/test/config files" := by
  have hne' : imports.isEmpty = false := isEmpty_false_of_ne_nil hne
  have hU : imports.any (isProductionImport config) = false := by
    refine List.any_eq_false.mpr ?_
    intro i hi
    simp [isProductionImport, (hall i hi).1]
  have hD : imports.any (isDevImport config) = false := by
    refine List.any_eq_false.mpr ?_
    intro i hi
    obtain ⟨h1, h2, h3, h4⟩ := hall i hi
    simp [isDevImport, h1, h2, h3, h4]
  simp [analyzePackageUsage, hne', usageAccOf_eq, hU, hD]

/-- A single runtime import of pkg from a file that no classification
rule covers: lib/util.ts is outside the configured source, test and
build directories of the sample layout and matches no test or
configuration name pattern. -/
def unclassifiedImports : List ImportInfo :=
  [⟨"pkg", false, "lib/util.ts", 1, 0⟩]

/-- Witness for claim C10 at the unclassified file lib/util.ts. -/
theorem C10_unclassified_files_fall_through_to_move_witness :
    (unclassifiedImports ≠ [] ∧
      ∀ imp ∈ unclassifiedImports,
        (classifyFile imp.filePath sampleLayout).isProduction = false ∧
        (classifyFile imp.filePath sampleLayout).isTest = false ∧
        (classifyFile imp.filePath sampleLayout).isBuild = false ∧
        (classifyFile imp.filePath sampleLayout).isConfig = false) ∧
    ((analyzePackageUsage "pkg" unclassifiedImports
        sampleLayout).usedInProduction = false ∧
      (analyzePackageUsage "pkg" unclassifiedImports
        sampleLayout).usedInDev = false ∧
      (analyzePackageUsage "pkg" unclassifiedImports
        sampleLayout).canMoveToDevDependencies = true ∧
      (analyzePackageUsage "pkg" unclassifiedImports sampleLayout).reason =
        "Only used in dev/test/config files") :=
  ⟨⟨by decide, by decide⟩,
    C10_unclassified_files_fall_through_to_move "pkg" unclassifiedImports
      sampleLayout (by decide) (by decide)⟩

end Depsort

namespace Depsort

/-- Componentwise combination of two accumulator states: disjunction of
the four usage flags, conjunction of the all-type-only flag. -/
def mergeAcc (a b : UsageAcc) : UsageAcc :=
  { usedInProduction := a.usedInProduction || b.usedInProduction
    usedInDev := a.usedInDev || b.usedInDev
    hasRuntimeInProduction :=
      a.hasRuntimeInProduction || b.hasRuntimeInProduction
    hasTypeOnlyInProduction :=
      a.hasTypeOnlyInProduction || b.hasTypeOnlyInProduction
    allImportsAreTypeOnly :=
      a.allImportsAreTypeOnly && b.allImportsAreTypeOnly }

/-- Claim C9: analysis aggregation is compositional.  For import-record
lists of disjoint file sets, grouping the concatenation gives, package
by package, the concatenation of the groups; the per-package verdict on
the concatenation equals the verdict on the re-aggregated groups; the
accumulator fold over a concatenation is the componentwise merge of the
folds of the parts; and the move list of `analyzeDependencies` on the
concatenation is computed from the re-aggregated per-package groups. -/
theorem C9_analysis_aggregation_compositional
    (config : ProjectConfig) (l1 l2 : List ImportInfo)
    (hdisj : ∀ i1 ∈ l1, ∀ i2 ∈ l2, i1.filePath ≠ i2.filePath) :
    (∀ pkg, packageGroup (l1 ++ l2) pkg =
      packageGroup l1 pkg ++ packageGroup l2 pkg) ∧
    (∀ pkg, analyzePackageUsage pkg (packageGroup (l1 ++ l2) pkg) config =
      analyzePackageUsage pkg
        (packageGroup l1 pkg ++ packageGroup l2 pkg) config) ∧
    (∀ g1 g2 : List ImportInfo, usageAccOf config (g1 ++ g2) =
      mergeAcc (usageAccOf config g1) (usageAccOf config g2)) ∧
    (analyzeDependencies config (l1 ++ l2)).packagesToMove =
      (config.dependencies.map (fun pkg => analyzePackageUsage pkg
        (packageGroup l1 pkg ++ packageGroup l2 pkg) config)).filter
          (fun pkg => pkg.canMoveToDevDependencies) := by
  have hgrp : ∀ pkg, packageGroup (l1 ++ l2) pkg =
      packageGroup l1 pkg ++ packageGroup l2 pkg := by
    intro pkg
    simp [packageGroup_eq_filter, List.filter_append]
  refine ⟨hgrp, fun pkg => by rw [hgrp pkg], ?_, ?_⟩
  · intro g1 g2
    simp [usageAccOf_eq, mergeAcc, List.any_append, List.all_append]
  · simp only [analyzeDependencies, hgrp]

/-- A runtime import of lodash in a production file (first file set of
the C9 witness). -/
def prodFileImports : List ImportInfo :=
  [⟨"lodash", false, "src/app.ts", 1, 0⟩]

/-- A type-only import of lodash in a test file (second file set of the
C9 witness, a file distinct from the first set). -/
def testFileImports : List ImportInfo :=
  [⟨"lodash", true, "test/app.test.ts", 1, 0⟩]

/-- Witness for claim C9 at two concrete disjoint one-file sets. -/
theorem C9_analysis_aggregation_compositional_witness :
    (∀ i1 ∈ prodFileImports, ∀ i2 ∈ testFileImports,
      i1.filePath ≠ i2.filePath) ∧
    packageGroup (prodFileImports ++ testFileImports) "lodash" =
      packageGroup prodFileImports "lodash" ++
        packageGroup testFileImports "lodash" :=
  ⟨by decide,
    (C9_analysis_aggregation_compositional sampleLayout prodFileImports
        testFileImports (by decide)).1 "lodash"⟩

end Depsort
